import Mathlib

/-!
Verification of the effect-size computation engine of the Effect Size
Calculator.  The engine consists of the interpreter `interpret_effect_size`,
the three analyzers `cat_on_cat_effect_size`, `cat_on_num_effect_size` and
`correlation_effect_size`, and the GUI dispatcher `calculate_effect_size`.

Modelling conventions:
* a table is the pair of columns handed to an analyzer: a list of rows, each
  row a pair of cells;
* a cell is missing (`na`), a non-numeric string (`cat`), or a numeric value
  (`num`); numbers are modelled exactly by rationals, real arithmetic models
  float arithmetic where square roots appear;
* external statistics routines that the analyzers only consume (p-values of
  `scipy.stats.chi2_contingency`, `scipy.stats.ttest_ind`,
  `scipy.stats.pearsonr` and the `pingouin.anova` outputs) are oracle
  parameters: the verified properties hold for every value they may return;
* the chi-square statistic itself is modelled by the Pearson statistic
  `chi2_stat` (sum over cells of (observed - expected)^2 / expected), the
  statistic `scipy.stats.chi2_contingency` computes (its optional continuity
  correction for one degree of freedom is not modelled).
-/

/-- `effect_type.lower()`: character-wise lowercasing of the kind string. -/
def lowerStr (s : String) : String := ⟨s.data.map Char.toLower⟩

/-- A cell of the input table: missing, a non-numeric string, or a number. -/
inductive Cell where
  | na : Cell
  | cat (s : String) : Cell
  | num (q : ℚ) : Cell
deriving DecidableEq

/-- The two columns handed to an analyzer, as a list of rows. -/
abbrev Table := List (Cell × Cell)

/-- `True` exactly on missing cells (pandas `NaN`). -/
def Cell.isNA : Cell → Bool
  | .na => true
  | _ => false

/-- The numeric value of a coerced cell (only used on `num` cells). -/
def Cell.numD : Cell → ℚ
  | .num q => q
  | _ => 0

/-- `pd.to_numeric(_, errors='coerce')` on one cell: numbers survive,
everything else becomes missing. -/
def coerceCell : Cell → Cell
  | .num q => .num q
  | _ => .na

/-- `df[num_col] = pd.to_numeric(df[num_col], errors='coerce')`:
coerce the second column. -/
def coerceSnd (t : Table) : Table := t.map (fun x => (x.1, coerceCell x.2))

/-- Coercion of the first column (`df[col1] = pd.to_numeric(df[col1], ...)`). -/
def coerceFst (t : Table) : Table := t.map (fun x => (coerceCell x.1, x.2))

/-- `df.dropna(subset=[colA, colB])`: keep the rows in which both cells are
present.  The same filtering is what `pd.crosstab` applies to its two input
columns. -/
def dropnaBoth (t : Table) : Table :=
  t.filter (fun x => !x.1.isNA && !x.2.isNA)

/-- Distinct values of a list in order of first appearance
(`pandas.Series.unique`), with an accumulator of already-seen values. -/
def uniqueValsAux {α : Type} [DecidableEq α] : List α → List α → List α
  | [], _ => []
  | a :: l, seen =>
      if a ∈ seen then uniqueValsAux l seen else a :: uniqueValsAux l (a :: seen)

/-- Distinct values of a list in order of first appearance
(`pandas.Series.unique`). -/
def uniqueVals {α : Type} [DecidableEq α] (l : List α) : List α :=
  uniqueValsAux l []

/-- The distinct values of the first column: the row labels of
`pd.crosstab(df[cat_col1], df[cat_col2])`. -/
def rowVals (t : Table) : List Cell := uniqueVals (t.map Prod.fst)

/-- The distinct values of the second column: the column labels of the
cross-tabulation. -/
def colVals (t : Table) : List Cell := uniqueVals (t.map Prod.snd)

/-- Number of rows of `t` whose first cell is `a` (a row margin of the
cross-tabulation). -/
def rowCount (t : Table) (a : Cell) : ℕ :=
  (t.filter (fun x => decide (x.1 = a))).length

/-- Number of rows of `t` whose second cell is `b` (a column margin of the
cross-tabulation). -/
def colCount (t : Table) (b : Cell) : ℕ :=
  (t.filter (fun x => decide (x.2 = b))).length

/-- Number of rows of `t` equal to the pair `(a, b)`: one cell of the
cross-tabulation. -/
def cellCount (t : Table) (a b : Cell) : ℕ :=
  ((t.filter (fun x => decide (x.1 = a))).filter (fun x => decide (x.2 = b))).length

/-- Expected count of cell `(a, b)` under independence:
row margin times column margin over the total count. -/
def expectedCount (t : Table) (a b : Cell) : ℚ :=
  (rowCount t a : ℚ) * (colCount t b : ℚ) / (t.length : ℚ)

/-- The Pearson chi-square statistic of the cross-tabulation of `t`, the
statistic returned by `scipy.stats.chi2_contingency` (continuity correction
not modelled). -/
def chi2_stat (t : Table) : ℚ :=
  ((rowVals t).map (fun a =>
    ((colVals t).map (fun b =>
      ((cellCount t a b : ℚ) - expectedCount t a b) ^ 2 / expectedCount t a b)).sum)).sum

/-- `denom = min((k - 1), (r - 1)) if min((k - 1), (r - 1)) > 0 else 1`
where `r, k = contingency_table.shape`. -/
def cat_cat_denom (t : Table) : ℤ :=
  if 0 < min ((colVals t).length - 1 : ℤ) ((rowVals t).length - 1 : ℤ) then
    min ((colVals t).length - 1 : ℤ) ((rowVals t).length - 1 : ℤ)
  else 1

/-- `phi2 = chi2 / n` where `n = contingency_table.values.sum()`. -/
def cat_cat_phi2 (t : Table) : ℚ := chi2_stat t / (t.length : ℚ)

/-- The square of Cramér's V, `phi2 / denom`. -/
def cat_cat_vsq (t : Table) : ℚ := cat_cat_phi2 t / (cat_cat_denom t : ℚ)

/-- `cramers_v = np.sqrt(phi2 / denom)`. -/
noncomputable def cramers_v (t : Table) : ℝ := Real.sqrt ((cat_cat_vsq t : ℚ) : ℝ)

/-- The errors the engine can raise, one constructor per `raise` site /
failing lookup, named after the spec taxonomy:
`invalidCategoryCount` is `ValueError("Categorical column must have at least
2 categories for comparison.")`, `zeroVariance` is `ValueError("Pooled
standard deviation is zero; cannot compute Cohen's d.")`, `insufficientData`
is `ValueError("Not enough valid numeric data for correlation.")` and
`unknownMetricKind` is the `KeyError` of the band-table lookup. -/
inductive EngineError where
  | invalidCategoryCount : EngineError
  | zeroVariance : EngineError
  | insufficientData : EngineError
  | unknownMetricKind : EngineError
deriving DecidableEq

/-- The content of the `result_text` an analyzer produces: either the effect
size with its interpretation and the p-value, or the "not statistically
significant" text carrying only the p-value and alpha. -/
inductive AnalysisResult where
  | significant (value : ℝ) (interpretation : Option String) (p_value : ℝ)
  | notSignificant (p_value : ℝ) (alpha : ℝ)

/-- One band of an interpretation table: an upper bound (`none` is
`float('inf')`) and its label. -/
abbrev Band := Option ℚ × String

/-- The `interpretations` dictionary of `interpret_effect_size`: the band
table of each recognized kind, `none` for any other key (the `KeyError`
case). -/
def interpretations (k : String) : Option (List Band) :=
  if k = "cohen's d" then
    some [(some (2/10), "small effect size"), (some (5/10), "medium effect size"),
          (some (8/10), "large effect size"), (none, "very large effect size")]
  else if k = "eta squared" then
    some [(some (1/100), "small effect size"), (some (6/100), "medium effect size"),
          (some (14/100), "large effect size"), (none, "very large effect size")]
  else if k = "pearson's r" then
    some [(some (1/10), "negligible correlation"), (some (3/10), "small correlation"),
          (some (5/10), "medium correlation"), (some (7/10), "large correlation"),
          (some (9/10), "very large correlation"), (none, "perfect correlation")]
  else if k = "cram√©r's v" then
    some [(some (1/10), "small effect size"), (some (3/10), "medium effect size"),
          (some (5/10), "large effect size"), (none, "very large effect size")]
  else none

/-- `abs(value) < threshold` for one band's bound (`float('inf')` exceeds
every finite value). -/
def bandHolds (value : ℝ) : Option ℚ → Prop
  | none => True
  | some q => |value| < (q : ℝ)

noncomputable instance (value : ℝ) (b : Option ℚ) : Decidable (bandHolds value b) :=
  match b with
  | none => .isTrue trivial
  | some _ => Real.decidableLT _ _

/-- The loop of `interpret_effect_size`: the label of the first band whose
bound exceeds `abs(value)` (`none` when the loop falls through and the
function implicitly returns `None`). -/
noncomputable def firstBand (value : ℝ) : List Band → Option String
  | [] => none
  | (b, lab) :: rest => if bandHolds value b then some lab else firstBand value rest

/-- The index of the first band whose bound exceeds `abs(value)` — the
severity rank of the returned label (the list length when no band matches). -/
noncomputable def bandIndex (value : ℝ) : List Band → ℕ
  | [] => 0
  | (b, _) :: rest => if bandHolds value b then 0 else bandIndex value rest + 1

/-- `interpret_effect_size(value, effect_type)`: look up the band table of
`effect_type.lower()` (a missing key raises) and scan it for the first band
whose bound exceeds `abs(value)`. -/
noncomputable def interpret_effect_size (value : ℝ) (effect_type : String) :
    Except EngineError (Option String) :=
  match interpretations (lowerStr effect_type) with
  | none => .error .unknownMetricKind
  | some bands => .ok (firstBand value bands)

/-- `cat_on_cat_effect_size(df, cat_col1, cat_col2, alpha)`.  The p-value of
`scipy.stats.chi2_contingency` is the oracle `chi2p`, applied to the
cross-tabulated (NA-dropped) rows; the statistic itself is `chi2_stat`. -/
noncomputable def cat_on_cat_effect_size (t : Table) (alpha : ℝ)
    (chi2p : Table → ℝ) : Except EngineError AnalysisResult :=
  let ct := dropnaBoth t
  let p_value := chi2p ct
  if p_value ≤ alpha then do
    let interpretation ← interpret_effect_size (cramers_v ct) "Cram√©r's V"
    .ok (.significant (cramers_v ct) interpretation p_value)
  else
    .ok (.notSignificant p_value alpha)

/-- `group1.mean()` (pandas mean of a numeric series). -/
def smean (xs : List ℚ) : ℚ := xs.sum / (xs.length : ℚ)

/-- `group.var(ddof=1)` (pandas sample variance, `n - 1` denominator). -/
def svar (xs : List ℚ) : ℚ :=
  (xs.map (fun x => (x - smean xs) ^ 2)).sum / ((xs.length : ℚ) - 1)

/-- `df[df[cat_col] == v][num_col]`: the numeric values of the rows in
category `v`. -/
def groupVals (t : Table) (v : Cell) : List ℚ :=
  (t.filter (fun x => decide (x.1 = v))).map (fun x => x.2.numD)

/-- `np.sqrt((group1.var(ddof=1) + group2.var(ddof=1)) / 2)`. -/
noncomputable def pooled_std (g1 g2 : List ℚ) : ℝ :=
  Real.sqrt (((svar g1 + svar g2) / 2 : ℚ) : ℝ)

/-- `cat_on_num_effect_size(df, cat_col, num_col, alpha)`: coerce the numeric
column, drop incomplete rows, then branch on the number of categories.  The
`scipy.stats.ttest_ind` pair `(t_stat, p_value)` is the oracle `tt`; the
`pingouin.anova` pair `(p-unc, np2)` is the oracle `an`. -/
noncomputable def cat_on_num_effect_size (t : Table) (alpha : ℝ)
    (tt : List ℚ → List ℚ → ℝ × ℝ) (an : Table → ℝ × ℝ) :
    Except EngineError AnalysisResult :=
  let df := dropnaBoth (coerceSnd t)
  let unique_vals := uniqueVals (df.map Prod.fst)
  if unique_vals.length < 2 then
    .error .invalidCategoryCount
  else if unique_vals.length = 2 then
    let group1 := groupVals df (unique_vals.getD 0 .na)
    let group2 := groupVals df (unique_vals.getD 1 .na)
    let p_value := (tt group1 group2).2
    if pooled_std group1 group2 = 0 then
      .error .zeroVariance
    else
      let cohen_d_value := (((smean group1 : ℚ) : ℝ) - ((smean group2 : ℚ) : ℝ)) /
        pooled_std group1 group2
      if p_value ≤ alpha then do
        let interpretation ← interpret_effect_size cohen_d_value "Cohen's d"
        .ok (.significant cohen_d_value interpretation p_value)
      else
        .ok (.notSignificant p_value alpha)
  else
    let p_value := (an df).1
    let eta_squared_value := (an df).2
    if p_value ≤ alpha then do
      let interpretation ← interpret_effect_size eta_squared_value "Eta Squared"
      .ok (.significant eta_squared_value interpretation p_value)
    else
      .ok (.notSignificant p_value alpha)

/-- `correlation_effect_size(df, col1, col2, alpha)`: coerce both columns,
drop incomplete rows, require at least 2 rows.  The `scipy.stats.pearsonr`
pair `(r, p_value)` is the oracle `pe`. -/
noncomputable def correlation_effect_size (t : Table) (alpha : ℝ)
    (pe : Table → ℝ × ℝ) : Except EngineError AnalysisResult :=
  let df := dropnaBoth (coerceSnd (coerceFst t))
  if df.length < 2 then
    .error .insufficientData
  else
    let r := (pe df).1
    let p_value := (pe df).2
    if p_value ≤ alpha then do
      let interpretation ← interpret_effect_size r "Pearson's r"
      .ok (.significant r interpretation p_value)
    else
      .ok (.notSignificant p_value alpha)

/-- The three entries of the effect-type selector. -/
inductive EffectType where
  | catCat : EffectType
  | catNum : EffectType
  | corr : EffectType

/-- What `calculate_effect_size` leaves in the UI: a validation message box,
an analyzer exception shown in a message box, or the analyzer's result. -/
inductive CalcOutcome where
  | uiError (msg : String) : CalcOutcome
  | engineError (e : EngineError) : CalcOutcome
  | calcOk (res : AnalysisResult) : CalcOutcome

/-- The `try ... except` around an analyzer call: an exception becomes an
error message box, a value becomes the displayed result. -/
def wrapResult : Except EngineError AnalysisResult → CalcOutcome
  | .ok r => .calcOk r
  | .error e => .engineError e

/-- `calculate_effect_size`, the handler behind the Calculate button:
`alphaText` is the result of `float(self.alpha_entry.text())` (`none` when
the text does not parse); the only validations are that parse and the
distinct-columns check, after which the selected analyzer is invoked with
`alpha` as parsed. -/
noncomputable def calculate_effect_size (t : Table) (alphaText : Option ℝ)
    (effect_type : EffectType) (col1 col2 : String)
    (chi2p : Table → ℝ) (tt : List ℚ → List ℚ → ℝ × ℝ)
    (an : Table → ℝ × ℝ) (pe : Table → ℝ × ℝ) : CalcOutcome :=
  match alphaText with
  | none => .uiError "Significance must be a numeric value."
  | some alpha =>
    if col1 = col2 then .uiError "Please select two different columns."
    else
      match effect_type with
      | .catCat => wrapResult (cat_on_cat_effect_size t alpha chi2p)
      | .catNum => wrapResult (cat_on_num_effect_size t alpha tt an)
      | .corr => wrapResult (correlation_effect_size t alpha pe)

/-- A heap of dataframe objects: the mutation model for the frame-effect
property.  References are indices. -/
abbrev Store := List Table

/-- Dereference a dataframe. -/
def Store.read (st : Store) (r : ℕ) : Table := (st[r]?).getD []

/-- Mutate the dataframe behind a reference in place. -/
def Store.write (st : Store) (r : ℕ) (tb : Table) : Store := st.set r tb

/-- Allocate a fresh dataframe object, returning its reference. -/
def Store.alloc (st : Store) (tb : Table) : Store × ℕ := (st ++ [tb], st.length)

/-- The dataframe operations `cat_on_cat_effect_size` performs on the heap:
`pd.crosstab(df[cat_col1], df[cat_col2])` only reads the argument and
allocates the fresh contingency table. -/
def cat_on_cat_prog (st : Store) (r : ℕ) : Store × ℕ :=
  Store.alloc st (dropnaBoth (Store.read st r))

/-- The dataframe operations `cat_on_num_effect_size` performs on the heap:
`df = df.copy()` allocates a copy, the `pd.to_numeric` column assignment
mutates that copy in place, `df = df.dropna(...)` allocates the cleaned
frame. -/
def cat_on_num_prog (st : Store) (r : ℕ) : Store × ℕ :=
  let a := Store.alloc st (Store.read st r)
  let st2 := Store.write a.1 a.2 (coerceSnd (Store.read a.1 a.2))
  Store.alloc st2 (dropnaBoth (Store.read st2 a.2))

/-- The dataframe operations `correlation_effect_size` performs on the heap:
copy, coerce both columns of the copy in place, allocate the cleaned frame. -/
def correlation_prog (st : Store) (r : ℕ) : Store × ℕ :=
  let a := Store.alloc st (Store.read st r)
  let st2 := Store.write a.1 a.2 (coerceFst (Store.read a.1 a.2))
  let st3 := Store.write st2 a.2 (coerceSnd (Store.read st2 a.2))
  Store.alloc st3 (dropnaBoth (Store.read st3 a.2))

theorem mem_uniqueValsAux {α : Type} [DecidableEq α] (l : List α) (seen : List α) (x : α) :
    x ∈ uniqueValsAux l seen ↔ x ∈ l ∧ x ∉ seen := by
  induction l generalizing seen with
  | nil => simp [uniqueValsAux]
  | cons a l ih =>
    by_cases ha : a ∈ seen
    · rw [uniqueValsAux, if_pos ha, ih]
      constructor
      · rintro ⟨hx, hs⟩; exact ⟨List.mem_cons_of_mem a hx, hs⟩
      · rintro ⟨hx, hs⟩
        rcases List.mem_cons.mp hx with rfl | hx
        · exact absurd ha hs
        · exact ⟨hx, hs⟩
    · rw [uniqueValsAux, if_neg ha]
      constructor
      · intro hx
        rcases List.mem_cons.mp hx with rfl | hx
        · exact ⟨List.mem_cons_self x l, ha⟩
        · rcases (ih _).mp hx with ⟨h1, h2⟩
          refine ⟨List.mem_cons_of_mem a h1, fun hc => h2 ?_⟩
          exact List.mem_cons_of_mem a hc
      · rintro ⟨hx, hs⟩
        rcases List.mem_cons.mp hx with rfl | hx
        · exact List.mem_cons_self x _
        · by_cases hxa : x = a
          · subst hxa; exact List.mem_cons_self x _
          · refine List.mem_cons_of_mem a ((ih _).mpr ⟨hx, ?_⟩)
            intro hc
            rcases List.mem_cons.mp hc with h | h
            · exact hxa h
            · exact hs h

theorem nodup_uniqueValsAux {α : Type} [DecidableEq α] (l : List α) (seen : List α) :
    (uniqueValsAux l seen).Nodup := by
  induction l generalizing seen with
  | nil => simp [uniqueValsAux]
  | cons a l ih =>
    by_cases ha : a ∈ seen
    · rw [uniqueValsAux, if_pos ha]; exact ih _
    · rw [uniqueValsAux, if_neg ha]
      refine List.nodup_cons.mpr ⟨fun hc => ?_, ih _⟩
      exact ((mem_uniqueValsAux _ _ _).mp hc).2 (List.mem_cons_self a seen)

theorem mem_uniqueVals {α : Type} [DecidableEq α] (l : List α) (x : α) :
    x ∈ uniqueVals l ↔ x ∈ l := by
  rw [uniqueVals, mem_uniqueValsAux]; simp

theorem nodup_uniqueVals {α : Type} [DecidableEq α] (l : List α) :
    (uniqueVals l).Nodup := nodup_uniqueValsAux l []

theorem bandHolds_mono {x y : ℝ} (hxy : |x| ≤ |y|) {b : Option ℚ}
    (h : bandHolds y b) : bandHolds x b := by
  cases b with
  | none => trivial
  | some q => exact lt_of_le_of_lt hxy h

theorem bandIndex_le_length (v : ℝ) (bands : List Band) :
    bandIndex v bands ≤ bands.length := by
  induction bands with
  | nil => simp [bandIndex]
  | cons hd tl ih =>
    obtain ⟨b, lab⟩ := hd
    by_cases h : bandHolds v b
    · simp [bandIndex, h]
    · simp only [bandIndex, if_neg h, List.length_cons]
      omega

theorem firstBand_eq_get? (v : ℝ) (bands : List Band) :
    firstBand v bands = (bands.get? (bandIndex v bands)).map Prod.snd := by
  induction bands with
  | nil => simp [firstBand, bandIndex]
  | cons hd tl ih =>
    obtain ⟨b, lab⟩ := hd
    by_cases h : bandHolds v b
    · simp [firstBand, bandIndex, h]
    · simp [firstBand, bandIndex, h, ih]

theorem bandHolds_at_bandIndex (v : ℝ) (bands : List Band)
    (h : bandIndex v bands < bands.length) :
    bandHolds v (bands.get ⟨bandIndex v bands, h⟩).1 := by
  induction bands with
  | nil => simp at h
  | cons hd tl ih =>
    obtain ⟨b, lab⟩ := hd
    by_cases hb : bandHolds v b
    · simp only [bandIndex, if_pos hb, List.get]
      exact hb
    · have hlt : bandIndex v tl < tl.length := by
        have := h; simp only [bandIndex, if_neg hb, List.length_cons] at this; omega
      have := ih hlt
      simpa [bandIndex, hb] using this

theorem not_bandHolds_of_lt_bandIndex (v : ℝ) (bands : List Band)
    (j : ℕ) (hj : j < bands.length) (hlt : j < bandIndex v bands) :
    ¬ bandHolds v (bands.get ⟨j, hj⟩).1 := by
  induction bands generalizing j with
  | nil => simp at hj
  | cons hd tl ih =>
    obtain ⟨b, lab⟩ := hd
    by_cases hb : bandHolds v b
    · simp [bandIndex, hb] at hlt
    · cases j with
      | zero => simp only [List.get]; exact hb
      | succ j =>
        have hj' : j < tl.length := by simpa using hj
        have hlt' : j < bandIndex v tl := by
          simp only [bandIndex, if_neg hb] at hlt; omega
        simpa using ih j hj' hlt'

theorem bandIndex_mono (bands : List Band) {x y : ℝ} (hxy : |x| ≤ |y|) :
    bandIndex x bands ≤ bandIndex y bands := by
  induction bands with
  | nil => simp [bandIndex]
  | cons hd tl ih =>
    obtain ⟨b, lab⟩ := hd
    by_cases hy : bandHolds y b
    · by_cases hx : bandHolds x b
      · simp [bandIndex, hx, hy]
      · exact absurd (bandHolds_mono hxy hy) hx
    · by_cases hx : bandHolds x b
      · simp [bandIndex, hx]
      · simp only [bandIndex, if_neg hx, if_neg hy]
        omega

theorem bandIndex_lt_of_unbounded (v : ℝ) (bands : List Band)
    (h : ∃ lab, (none, lab) ∈ bands) : bandIndex v bands < bands.length := by
  induction bands with
  | nil => simp at h
  | cons hd tl ih =>
    obtain ⟨b, lab⟩ := hd
    by_cases hb : bandHolds v b
    · simp [bandIndex, hb]
    · obtain ⟨lab', hmem⟩ := h
      rcases List.mem_cons.mp hmem with heq | hmem'
      · have : b = none := (Prod.mk.injEq _ _ _ _).mp heq.symm |>.1
        subst this; exact absurd trivial hb
      · have := ih ⟨lab', hmem'⟩
        simp only [bandIndex, if_neg hb, List.length_cons]
        omega

/-- C3: for every real value and every kind string whose lowercasing is one
of the four recognized kinds, `interpret_effect_size` returns a label (total,
no error case), namely the label of the first band of that kind's table, in
scanning order, whose bound strictly exceeds the absolute value; every
earlier band's bound does not. -/
theorem c3_interpret_total_first_band (v : ℝ) (k : String)
    (hk : lowerStr k ∈ ["cohen's d", "eta squared", "pearson's r", "cram√©r's v"]) :
    ∃ bands : List Band, interpretations (lowerStr k) = some bands ∧
      ∃ i : Fin bands.length,
        interpret_effect_size v k = .ok (some (bands.get i).2) ∧
        bandHolds v (bands.get i).1 ∧
        ∀ j : Fin bands.length, (j : ℕ) < (i : ℕ) → ¬ bandHolds v (bands.get j).1 := by
  have hbands : ∃ bands, interpretations (lowerStr k) = some bands ∧
      ∃ lab, (none, lab) ∈ bands := by
    simp only [List.mem_cons, List.not_mem_nil, or_false] at hk
    rcases hk with h | h | h | h
    · exact ⟨[(some (2/10), "small effect size"), (some (5/10), "medium effect size"),
        (some (8/10), "large effect size"), (none, "very large effect size")],
        by rw [h]; rfl, "very large effect size", by simp⟩
    · exact ⟨[(some (1/100), "small effect size"), (some (6/100), "medium effect size"),
        (some (14/100), "large effect size"), (none, "very large effect size")],
        by rw [h]; rfl, "very large effect size", by simp⟩
    · exact ⟨[(some (1/10), "negligible correlation"), (some (3/10), "small correlation"),
        (some (5/10), "medium correlation"), (some (7/10), "large correlation"),
        (some (9/10), "very large correlation"), (none, "perfect correlation")],
        by rw [h]; rfl, "perfect correlation", by simp⟩
    · exact ⟨[(some (1/10), "small effect size"), (some (3/10), "medium effect size"),
        (some (5/10), "large effect size"), (none, "very large effect size")],
        by rw [h]; rfl, "very large effect size", by simp⟩
  obtain ⟨bands, hB, hunb⟩ := hbands
  have hlt := bandIndex_lt_of_unbounded v bands hunb
  refine ⟨bands, hB, ⟨bandIndex v bands, hlt⟩, ?_, bandHolds_at_bandIndex v bands hlt, ?_⟩
  · simp only [interpret_effect_size, hB]
    rw [firstBand_eq_get?, List.get?_eq_get hlt]
    rfl
  · intro j hj
    exact not_bandHolds_of_lt_bandIndex v bands j j.isLt hj

/-- Witness for C3 at a concrete value and kind. -/
theorem c3_interpret_total_first_band_witness :
    (lowerStr "Pearson's r" ∈ ["cohen's d", "eta squared", "pearson's r", "cram√©r's v"]) ∧
    ∃ lab : String, interpret_effect_size (35/100) "Pearson's r" = .ok (some lab) := by
  refine ⟨by decide, ?_⟩
  obtain ⟨bands, -, i, hres, -, -⟩ :=
    c3_interpret_total_first_band (35/100) "Pearson's r" (by decide)
  exact ⟨_, hres⟩

/-- C6: for every kind recognized by the interpreter (those whose band table
exists), `interpret_effect_size` returns the label at severity rank
`bandIndex` of the band list, and that rank is monotone: a value of larger
absolute value is never mapped to a band of smaller rank. -/
theorem c6_interpret_monotone (k : String) (bands : List Band)
    (hk : interpretations (lowerStr k) = some bands) (x y : ℝ) (hxy : |x| ≤ |y|) :
    interpret_effect_size x k = .ok ((bands.get? (bandIndex x bands)).map Prod.snd) ∧
    bandIndex x bands ≤ bandIndex y bands := by
  refine ⟨?_, bandIndex_mono bands hxy⟩
  simp only [interpret_effect_size, hk]
  rw [firstBand_eq_get?]

/-- Witness for C6: Cohen's d values 0.2 and 0.6 land at ranks 1 and 2. -/
theorem c6_interpret_monotone_witness :
    bandIndex (1/5 : ℝ)
        [(some (2/10), "small effect size"), (some (5/10), "medium effect size"),
         (some (8/10), "large effect size"), (none, "very large effect size")] ≤
      bandIndex (3/5 : ℝ)
        [(some (2/10), "small effect size"), (some (5/10), "medium effect size"),
         (some (8/10), "large effect size"), (none, "very large effect size")] ∧
    bandIndex (1/5 : ℝ)
        [(some (2/10), "small effect size"), (some (5/10), "medium effect size"),
         (some (8/10), "large effect size"), (none, "very large effect size")] = 1 ∧
    bandIndex (3/5 : ℝ)
        [(some (2/10), "small effect size"), (some (5/10), "medium effect size"),
         (some (8/10), "large effect size"), (none, "very large effect size")] = 2 := by
  have h15 : |(1/5 : ℝ)| = 1/5 := abs_of_nonneg (by norm_num)
  have h35 : |(3/5 : ℝ)| = 3/5 := abs_of_nonneg (by norm_num)
  refine ⟨(c6_interpret_monotone "Cohen's d" _ (by rfl) (1/5) (3/5)
    (by rw [h15, h35]; norm_num)).2, ?_, ?_⟩
  · norm_num [bandIndex, bandHolds, h15]
  · norm_num [bandIndex, bandHolds, h35]

/-- C8: for every value and every kind string that does not lowercase to one
of the four recognized kinds, `interpret_effect_size` fails with the
unknown-metric-kind error instead of returning a label. -/
theorem c8_unknown_kind_error (v : ℝ) (k : String)
    (hk : lowerStr k ∉ ["cohen's d", "eta squared", "pearson's r", "cram√©r's v"]) :
    interpret_effect_size v k = .error .unknownMetricKind := by
  simp only [List.mem_cons, List.not_mem_nil, or_false, not_or] at hk
  obtain ⟨h1, h2, h3, h4⟩ := hk
  simp only [interpret_effect_size, interpretations, if_neg h1, if_neg h2, if_neg h3, if_neg h4]

/-- Witness for C8 at a concrete unrecognized kind. -/
theorem c8_unknown_kind_error_witness :
    interpret_effect_size 0 "Odds" = .error .unknownMetricKind :=
  c8_unknown_kind_error 0 "Odds" (by decide)

/-- C1: in every analyzer, when the computed p-value is at most alpha
(boundary included) the result carries the effect-size value, its
interpretation and the p-value; when the p-value strictly exceeds alpha the
result is the not-statistically-significant record carrying only the p-value
and alpha. -/
theorem c1_significance_gate :
    (∀ (t : Table) (alpha : ℝ) (chi2p : Table → ℝ) (res : AnalysisResult),
       cat_on_cat_effect_size t alpha chi2p = .ok res →
       (chi2p (dropnaBoth t) ≤ alpha ∧
          ∃ i, interpret_effect_size (cramers_v (dropnaBoth t)) "Cram√©r's V" = .ok i ∧
            res = .significant (cramers_v (dropnaBoth t)) i (chi2p (dropnaBoth t))) ∨
       (alpha < chi2p (dropnaBoth t) ∧
          res = .notSignificant (chi2p (dropnaBoth t)) alpha)) ∧
    (∀ (t : Table) (alpha : ℝ) (tt : List ℚ → List ℚ → ℝ × ℝ) (an : Table → ℝ × ℝ)
       (res : AnalysisResult) (df : Table) (uv : List Cell)
       (g1 g2 : List ℚ),
       df = dropnaBoth (coerceSnd t) → uv = uniqueVals (df.map Prod.fst) →
       g1 = groupVals df (uv.getD 0 .na) → g2 = groupVals df (uv.getD 1 .na) →
       cat_on_num_effect_size t alpha tt an = .ok res →
       ((uv.length = 2 →
          ((tt g1 g2).2 ≤ alpha ∧
            ∃ v i, res = .significant v i (tt g1 g2).2) ∨
          (alpha < (tt g1 g2).2 ∧ res = .notSignificant (tt g1 g2).2 alpha)) ∧
        (2 < uv.length →
          ((an df).1 ≤ alpha ∧
            ∃ i, interpret_effect_size (an df).2 "Eta Squared" = .ok i ∧
              res = .significant (an df).2 i (an df).1) ∨
          (alpha < (an df).1 ∧ res = .notSignificant (an df).1 alpha)))) ∧
    (∀ (t : Table) (alpha : ℝ) (pe : Table → ℝ × ℝ) (res : AnalysisResult) (df : Table),
       df = dropnaBoth (coerceSnd (coerceFst t)) →
       correlation_effect_size t alpha pe = .ok res →
       ((pe df).2 ≤ alpha ∧
          ∃ i, interpret_effect_size (pe df).1 "Pearson's r" = .ok i ∧
            res = .significant (pe df).1 i (pe df).2) ∨
       (alpha < (pe df).2 ∧ res = .notSignificant (pe df).2 alpha)) := by
  refine ⟨?_, ?_, ?_⟩
  · intro t alpha chi2p res hok
    by_cases hp : chi2p (dropnaBoth t) ≤ alpha
    · left
      refine ⟨hp, firstBand (cramers_v (dropnaBoth t))
        [(some (1/10), "small effect size"), (some (3/10), "medium effect size"),
         (some (5/10), "large effect size"), (none, "very large effect size")], rfl, ?_⟩
      simp only [cat_on_cat_effect_size, if_pos hp] at hok
      exact (Except.ok.inj hok).symm
    · right
      refine ⟨lt_of_not_le hp, ?_⟩
      simp only [cat_on_cat_effect_size, if_neg hp] at hok
      exact (Except.ok.inj hok).symm
  · intro t alpha tt an res df uv g1 g2 hdf huv hg1 hg2 hok
    subst hdf; subst huv; subst hg1; subst hg2
    simp only [cat_on_num_effect_size] at hok
    constructor
    · intro h2
      rw [h2, if_neg (lt_irrefl 2), if_pos rfl] at hok
      by_cases hps : pooled_std (groupVals (dropnaBoth (coerceSnd t))
          ((uniqueVals ((dropnaBoth (coerceSnd t)).map Prod.fst)).getD 0 .na))
          (groupVals (dropnaBoth (coerceSnd t))
          ((uniqueVals ((dropnaBoth (coerceSnd t)).map Prod.fst)).getD 1 .na)) = 0
      · rw [if_pos hps] at hok
        exact absurd hok (by simp)
      · rw [if_neg hps] at hok
        by_cases hp : (tt (groupVals (dropnaBoth (coerceSnd t))
            ((uniqueVals ((dropnaBoth (coerceSnd t)).map Prod.fst)).getD 0 .na))
            (groupVals (dropnaBoth (coerceSnd t))
            ((uniqueVals ((dropnaBoth (coerceSnd t)).map Prod.fst)).getD 1 .na))).2 ≤ alpha
        · left
          rw [if_pos hp] at hok
          exact ⟨hp, _, _, (Except.ok.inj hok).symm⟩
        · right
          rw [if_neg hp] at hok
          exact ⟨lt_of_not_le hp, (Except.ok.inj hok).symm⟩
    · intro h3
      rw [if_neg (by omega), if_neg (by omega)] at hok
      by_cases hp : (an (dropnaBoth (coerceSnd t))).1 ≤ alpha
      · left
        rw [if_pos hp] at hok
        refine ⟨hp, firstBand (an (dropnaBoth (coerceSnd t))).2
          [(some (1/100), "small effect size"), (some (6/100), "medium effect size"),
           (some (14/100), "large effect size"), (none, "very large effect size")], rfl, ?_⟩
        exact (Except.ok.inj hok).symm
      · right
        rw [if_neg hp] at hok
        exact ⟨lt_of_not_le hp, (Except.ok.inj hok).symm⟩
  · intro t alpha pe res df hdf hok
    subst hdf
    simp only [correlation_effect_size] at hok
    by_cases hn : (dropnaBoth (coerceSnd (coerceFst t))).length < 2
    · rw [if_pos hn] at hok
      exact absurd hok (by simp)
    · rw [if_neg hn] at hok
      by_cases hp : (pe (dropnaBoth (coerceSnd (coerceFst t)))).2 ≤ alpha
      · left
        rw [if_pos hp] at hok
        refine ⟨hp, firstBand (pe (dropnaBoth (coerceSnd (coerceFst t)))).1
          [(some (1/10), "negligible correlation"), (some (3/10), "small correlation"),
           (some (5/10), "medium correlation"), (some (7/10), "large correlation"),
           (some (9/10), "very large correlation"), (none, "perfect correlation")], rfl, ?_⟩
        exact (Except.ok.inj hok).symm
      · right
        rw [if_neg hp] at hok
        exact ⟨lt_of_not_le hp, (Except.ok.inj hok).symm⟩

/-- Witness for C1: a concrete categorical-categorical call whose p-value
1/2 exceeds alpha = 1/20 produces exactly the not-significant record. -/
theorem c1_significance_gate_witness :
    cat_on_cat_effect_size
        [(Cell.cat "A", Cell.cat "X"), (Cell.cat "A", Cell.cat "X"),
         (Cell.cat "B", Cell.cat "Y"), (Cell.cat "B", Cell.cat "Y")]
        (1/20) (fun _ => (1/2 : ℝ)) = .ok (.notSignificant (1/2) (1/20)) ∧
    ((1/20 : ℝ) < 1/2) := by
  have heval : cat_on_cat_effect_size
      [(Cell.cat "A", Cell.cat "X"), (Cell.cat "A", Cell.cat "X"),
       (Cell.cat "B", Cell.cat "Y"), (Cell.cat "B", Cell.cat "Y")]
      (1/20) (fun _ => (1/2 : ℝ)) = .ok (.notSignificant (1/2) (1/20)) := by
    simp only [cat_on_cat_effect_size]
    rw [if_neg (by norm_num : ¬ ((1 : ℝ)/2 ≤ 1/20))]
  rcases c1_significance_gate.1 _ (1/20) (fun _ => (1/2 : ℝ)) _ heval with ⟨h, -⟩ | ⟨h, -⟩
  · exact absurd h (by norm_num)
  · exact ⟨heval, h⟩

theorem store_read_append (st : Store) (tb : Table) (i : ℕ) (hi : i < st.length) :
    Store.read (st ++ [tb]) i = Store.read st i := by
  simp only [Store.read]
  rw [List.getElem?_append, if_pos hi]

theorem store_read_alloc_new (st : Store) (tb : Table) :
    Store.read (st ++ [tb]) st.length = tb := by
  simp only [Store.read]
  rw [List.getElem?_concat_length]
  rfl

theorem store_read_set_ne (st : Store) (tb : Table) (j i : ℕ) (h : j ≠ i) :
    Store.read (st.set j tb) i = Store.read st i := by
  simp only [Store.read]
  rw [List.getElem?_set_ne h]

theorem store_read_set_self (st : Store) (tb : Table) (j : ℕ) (hj : j < st.length) :
    Store.read (st.set j tb) j = tb := by
  simp only [Store.read]
  rw [List.getElem?_set_self', List.getElem?_eq_getElem hj]
  rfl

/-- C9: the analyzers never mutate a pre-existing dataframe: after the heap
operations of each analyzer, every reference allocated before the call
(the caller's table in particular) still reads its old contents; the cleaned
frame each analyzer hands back is built on a derived copy. -/
theorem c9_caller_table_unchanged (st : Store) (r i : ℕ) (hi : i < st.length) :
    Store.read (cat_on_cat_prog st r).1 i = Store.read st i ∧
    Store.read (cat_on_num_prog st r).1 i = Store.read st i ∧
    Store.read (correlation_prog st r).1 i = Store.read st i ∧
    Store.read (cat_on_num_prog st r).1 (cat_on_num_prog st r).2 =
      dropnaBoth (coerceSnd (Store.read st r)) ∧
    Store.read (correlation_prog st r).1 (correlation_prog st r).2 =
      dropnaBoth (coerceSnd (coerceFst (Store.read st r))) := by
  have hne : st.length ≠ i := (Nat.ne_of_lt hi).symm
  have hlen1 : st.length < (st ++ [Store.read st r]).length := by
    simp
  refine ⟨store_read_append st _ i hi, ?_, ?_, ?_, ?_⟩
  · simp only [cat_on_num_prog, Store.alloc, Store.write, store_read_alloc_new]
    rw [store_read_append _ _ i (by simpa [List.length_set] using Nat.lt_succ_of_lt hi),
      store_read_set_ne _ _ _ _ hne, store_read_append st _ i hi]
  · simp only [correlation_prog, Store.alloc, Store.write, store_read_alloc_new]
    rw [store_read_set_self _ _ _ hlen1]
    rw [store_read_append _ _ i
        (by simpa [List.length_set] using Nat.lt_succ_of_lt hi),
      store_read_set_ne _ _ _ _ hne, store_read_set_ne _ _ _ _ hne,
      store_read_append st _ i hi]
  · simp only [cat_on_num_prog, Store.alloc, Store.write, store_read_alloc_new]
    rw [store_read_set_self _ _ _ hlen1]
  · simp only [correlation_prog, Store.alloc, Store.write, store_read_alloc_new]
    rw [store_read_set_self _ _ _ hlen1]
    rw [store_read_set_self _ _ _ (by simp)]

/-- Witness for C9 on a one-dataframe heap. -/
theorem c9_caller_table_unchanged_witness :
    Store.read (cat_on_num_prog [[(Cell.cat "A", Cell.num 1)]] 0).1 0 =
      [(Cell.cat "A", Cell.num 1)] := by
  have h := (c9_caller_table_unchanged [[(Cell.cat "A", Cell.num 1)]] 0 0 (by decide)).2.1
  rw [h]
  decide

/-- Counterexample to C7: alpha = 2 lies outside (0, 1), yet
`calculate_effect_size` does not reject it — the categorical-categorical
analyzer is invoked and its result, carrying alpha = 2, is displayed. -/
theorem c7_counterexample :
    calculate_effect_size [(Cell.cat "A", Cell.cat "X")] (some 2) .catCat "Group" "Outcome"
        (fun _ => (3 : ℝ)) (fun _ _ => (0, 0)) (fun _ => (0, 0)) (fun _ => (0, 0)) =
      .calcOk (.notSignificant 3 2) ∧
    ¬ ((2 : ℝ) ∈ Set.Ioo (0 : ℝ) 1) := by
  constructor
  · simp only [calculate_effect_size]
    rw [if_neg (by decide : ¬ ("Group" = "Outcome"))]
    simp only [cat_on_cat_effect_size]
    rw [if_neg (by norm_num : ¬ ((3 : ℝ) ≤ 2))]
    rfl
  · simp only [Set.mem_Ioo, not_and_or]
    right
    norm_num

/-- C7 as amended: the handler validates only that the alpha text parses as
a number and that the two column names differ; every parsed alpha — inside
or outside (0, 1) — is dispatched unchanged to the selected analyzer, and
the only alpha-related rejection is a non-numeric alpha text. -/
theorem c7_amended_no_alpha_range_check (t : Table) (a : ℝ) (c1 c2 : String)
    (hne : c1 ≠ c2) (chi2p : Table → ℝ) (tt : List ℚ → List ℚ → ℝ × ℝ)
    (an : Table → ℝ × ℝ) (pe : Table → ℝ × ℝ) :
    calculate_effect_size t (some a) .catCat c1 c2 chi2p tt an pe =
      wrapResult (cat_on_cat_effect_size t a chi2p) ∧
    calculate_effect_size t (some a) .catNum c1 c2 chi2p tt an pe =
      wrapResult (cat_on_num_effect_size t a tt an) ∧
    calculate_effect_size t (some a) .corr c1 c2 chi2p tt an pe =
      wrapResult (correlation_effect_size t a pe) ∧
    calculate_effect_size t none .catCat c1 c2 chi2p tt an pe =
      .uiError "Significance must be a numeric value." := by
  refine ⟨?_, ?_, ?_, rfl⟩ <;>
    · simp only [calculate_effect_size]
      rw [if_neg hne]

/-- Witness for the amended C7 at the out-of-range alpha = 2. -/
theorem c7_amended_no_alpha_range_check_witness :
    calculate_effect_size [(Cell.cat "A", Cell.cat "X")] (some 2) .catCat "Group" "Outcome"
        (fun _ => (3 : ℝ)) (fun _ _ => (0, 0)) (fun _ => (0, 0)) (fun _ => (0, 0)) =
      wrapResult (cat_on_cat_effect_size [(Cell.cat "A", Cell.cat "X")] 2 (fun _ => (3 : ℝ))) :=
  (c7_amended_no_alpha_range_check [(Cell.cat "A", Cell.cat "X")] 2 "Group" "Outcome"
    (by decide) (fun _ => (3 : ℝ)) (fun _ _ => (0, 0)) (fun _ => (0, 0)) (fun _ => (0, 0))).1

/-- C4: in the two-group branch, the pooled standard deviation is the square
root of the average of the two groups' sample variances (n - 1 denominator
each); the analyzer fails with ZeroVariance exactly when that pooled
standard deviation is zero, and otherwise the effect size it carries on a
significant result is Cohen's d = (mean(group1) - mean(group2)) / pooled. -/
theorem c4_zero_variance_gate (t : Table) (alpha : ℝ)
    (tt : List ℚ → List ℚ → ℝ × ℝ) (an : Table → ℝ × ℝ)
    (df : Table) (uv : List Cell) (g1 g2 : List ℚ)
    (hdf : df = dropnaBoth (coerceSnd t)) (huv : uv = uniqueVals (df.map Prod.fst))
    (hg1 : g1 = groupVals df (uv.getD 0 .na)) (hg2 : g2 = groupVals df (uv.getD 1 .na))
    (h2 : uv.length = 2) :
    pooled_std g1 g2 = Real.sqrt (((svar g1 + svar g2) / 2 : ℚ) : ℝ) ∧
    (cat_on_num_effect_size t alpha tt an = .error .zeroVariance ↔ pooled_std g1 g2 = 0) ∧
    (pooled_std g1 g2 ≠ 0 → ∀ (v : ℝ) (i : Option String) (p : ℝ),
      cat_on_num_effect_size t alpha tt an = .ok (.significant v i p) →
      v = (((smean g1 : ℚ) : ℝ) - ((smean g2 : ℚ) : ℝ)) / pooled_std g1 g2) := by
  subst hdf; subst huv; subst hg1; subst hg2
  refine ⟨rfl, ?_, ?_⟩
  · simp only [cat_on_num_effect_size]
    rw [h2, if_neg (lt_irrefl 2), if_pos rfl]
    by_cases hps : pooled_std
        (groupVals (dropnaBoth (coerceSnd t))
          ((uniqueVals ((dropnaBoth (coerceSnd t)).map Prod.fst)).getD 0 .na))
        (groupVals (dropnaBoth (coerceSnd t))
          ((uniqueVals ((dropnaBoth (coerceSnd t)).map Prod.fst)).getD 1 .na)) = 0
    · rw [if_pos hps]
      exact ⟨fun _ => hps, fun _ => rfl⟩
    · rw [if_neg hps]
      constructor
      · intro hcontra
        by_cases hp : (tt (groupVals (dropnaBoth (coerceSnd t))
            ((uniqueVals ((dropnaBoth (coerceSnd t)).map Prod.fst)).getD 0 .na))
            (groupVals (dropnaBoth (coerceSnd t))
            ((uniqueVals ((dropnaBoth (coerceSnd t)).map Prod.fst)).getD 1 .na))).2 ≤ alpha
        · rw [if_pos hp] at hcontra
          exact absurd hcontra (fun hh => Except.noConfusion hh)
        · rw [if_neg hp] at hcontra
          exact absurd hcontra (fun hh => Except.noConfusion hh)
      · intro hcontra
        exact absurd hcontra hps
  · intro hps v i p hok
    simp only [cat_on_num_effect_size] at hok
    rw [h2, if_neg (lt_irrefl 2), if_pos rfl, if_neg hps] at hok
    by_cases hp : (tt (groupVals (dropnaBoth (coerceSnd t))
        ((uniqueVals ((dropnaBoth (coerceSnd t)).map Prod.fst)).getD 0 .na))
        (groupVals (dropnaBoth (coerceSnd t))
        ((uniqueVals ((dropnaBoth (coerceSnd t)).map Prod.fst)).getD 1 .na))).2 ≤ alpha
    · rw [if_pos hp] at hok
      exact ((AnalysisResult.significant.inj (Except.ok.inj hok)).1).symm
    · rw [if_neg hp] at hok
      exact absurd (Except.ok.inj hok) (by simp)

/-- Witness for C4: two groups of constant equal values fail with
ZeroVariance. -/
theorem c4_zero_variance_gate_witness :
    cat_on_num_effect_size
        [(Cell.cat "A", Cell.num 3), (Cell.cat "A", Cell.num 3),
         (Cell.cat "B", Cell.num 3), (Cell.cat "B", Cell.num 3)]
        (1/20) (fun _ _ => (0, 0)) (fun _ => (0, 0)) = .error .zeroVariance := by
  have h := (c4_zero_variance_gate
      [(Cell.cat "A", Cell.num 3), (Cell.cat "A", Cell.num 3),
       (Cell.cat "B", Cell.num 3), (Cell.cat "B", Cell.num 3)]
      (1/20) (fun _ _ => (0, 0)) (fun _ => (0, 0)) _ _ _ _ rfl rfl rfl rfl (by decide)).2.1
  apply h.mpr
  have hg1 : groupVals (dropnaBoth (coerceSnd
      [(Cell.cat "A", Cell.num 3), (Cell.cat "A", Cell.num 3),
       (Cell.cat "B", Cell.num 3), (Cell.cat "B", Cell.num 3)]))
      ((uniqueVals ((dropnaBoth (coerceSnd
      [(Cell.cat "A", Cell.num 3), (Cell.cat "A", Cell.num 3),
       (Cell.cat "B", Cell.num 3), (Cell.cat "B", Cell.num 3)])).map Prod.fst)).getD 0 .na) =
      [3, 3] := by decide
  have hg2 : groupVals (dropnaBoth (coerceSnd
      [(Cell.cat "A", Cell.num 3), (Cell.cat "A", Cell.num 3),
       (Cell.cat "B", Cell.num 3), (Cell.cat "B", Cell.num 3)]))
      ((uniqueVals ((dropnaBoth (coerceSnd
      [(Cell.cat "A", Cell.num 3), (Cell.cat "A", Cell.num 3),
       (Cell.cat "B", Cell.num 3), (Cell.cat "B", Cell.num 3)])).map Prod.fst)).getD 1 .na) =
      [3, 3] := by decide
  rw [hg1, hg2]
  unfold pooled_std
  have hsv : ((svar [3, 3] + svar [3, 3]) / 2 : ℚ) = 0 := by
    norm_num [svar, smean]
  rw [hsv]
  norm_num

/-- C10: in the two-group branch, group1 belongs to the category value that
occurs first in row order of the cleaned table; reordering the rows of the
same data so that the other category comes first negates the returned
Cohen's d (here: -4 versus 4 on two tables that are permutations of each
other). -/
theorem c10_row_order_sign :
    ([(Cell.cat "B", Cell.num 5), (Cell.cat "B", Cell.num 5),
      (Cell.cat "A", Cell.num 0), (Cell.cat "A", Cell.num 2)] : Table).Perm
      [(Cell.cat "A", Cell.num 0), (Cell.cat "A", Cell.num 2),
       (Cell.cat "B", Cell.num 5), (Cell.cat "B", Cell.num 5)] ∧
    uniqueVals (([(Cell.cat "A", Cell.num 0), (Cell.cat "A", Cell.num 2),
        (Cell.cat "B", Cell.num 5), (Cell.cat "B", Cell.num 5)] : Table).map Prod.fst) =
      [Cell.cat "A", Cell.cat "B"] ∧
    uniqueVals (([(Cell.cat "B", Cell.num 5), (Cell.cat "B", Cell.num 5),
        (Cell.cat "A", Cell.num 0), (Cell.cat "A", Cell.num 2)] : Table).map Prod.fst) =
      [Cell.cat "B", Cell.cat "A"] ∧
    cat_on_num_effect_size
        [(Cell.cat "A", Cell.num 0), (Cell.cat "A", Cell.num 2),
         (Cell.cat "B", Cell.num 5), (Cell.cat "B", Cell.num 5)]
        (1/20) (fun _ _ => (0, 0)) (fun _ => (0, 0)) =
      .ok (.significant (-4) (some "very large effect size") 0) ∧
    cat_on_num_effect_size
        [(Cell.cat "B", Cell.num 5), (Cell.cat "B", Cell.num 5),
         (Cell.cat "A", Cell.num 0), (Cell.cat "A", Cell.num 2)]
        (1/20) (fun _ _ => (0, 0)) (fun _ => (0, 0)) =
      .ok (.significant 4 (some "very large effect size") 0) := by
  have hsvA : ((svar [0, 2] + svar [5, 5]) / 2 : ℚ) = 1 := by
    norm_num [svar, smean]
  have hsvB : ((svar [5, 5] + svar [0, 2]) / 2 : ℚ) = 1 := by
    norm_num [svar, smean]
  have hpsA : pooled_std [0, 2] [5, 5] = 1 := by
    unfold pooled_std
    rw [hsvA]
    norm_num
  have hpsB : pooled_std [5, 5] [0, 2] = 1 := by
    unfold pooled_std
    rw [hsvB]
    norm_num
  have hdA : (((smean [0, 2] : ℚ) : ℝ) - ((smean [5, 5] : ℚ) : ℝ)) / pooled_std [0, 2] [5, 5] =
      -4 := by
    rw [hpsA]
    norm_num [smean]
  have hdB : (((smean [5, 5] : ℚ) : ℝ) - ((smean [0, 2] : ℚ) : ℝ)) / pooled_std [5, 5] [0, 2] =
      4 := by
    rw [hpsB]
    norm_num [smean]
  have habsA : |(-4 : ℝ)| = 4 := by
    rw [abs_of_nonpos (by norm_num : (-4 : ℝ) ≤ 0)]
    norm_num
  have habsB : |(4 : ℝ)| = 4 := abs_of_nonneg (by norm_num)
  have hB : interpretations (lowerStr "Cohen's d") =
      some [(some (2/10), "small effect size"), (some (5/10), "medium effect size"),
            (some (8/10), "large effect size"), (none, "very large effect size")] := rfl
  have hiA : interpret_effect_size (-4) "Cohen's d" = .ok (some "very large effect size") := by
    simp only [interpret_effect_size, hB]
    norm_num [firstBand, bandHolds, habsA]
  have hiB : interpret_effect_size 4 "Cohen's d" = .ok (some "very large effect size") := by
    simp only [interpret_effect_size, hB]
    norm_num [firstBand, bandHolds, habsB]
  refine ⟨by decide, by decide, by decide, ?_, ?_⟩
  · have hdf : dropnaBoth (coerceSnd
        [(Cell.cat "A", Cell.num 0), (Cell.cat "A", Cell.num 2),
         (Cell.cat "B", Cell.num 5), (Cell.cat "B", Cell.num 5)]) =
        [(Cell.cat "A", Cell.num 0), (Cell.cat "A", Cell.num 2),
         (Cell.cat "B", Cell.num 5), (Cell.cat "B", Cell.num 5)] := by decide
    have huv : uniqueVals (([(Cell.cat "A", Cell.num 0), (Cell.cat "A", Cell.num 2),
        (Cell.cat "B", Cell.num 5), (Cell.cat "B", Cell.num 5)] : Table).map Prod.fst) =
        [Cell.cat "A", Cell.cat "B"] := by decide
    have hg1 : groupVals
        [(Cell.cat "A", Cell.num 0), (Cell.cat "A", Cell.num 2),
         (Cell.cat "B", Cell.num 5), (Cell.cat "B", Cell.num 5)] (Cell.cat "A") = [0, 2] := by
      decide
    have hg2 : groupVals
        [(Cell.cat "A", Cell.num 0), (Cell.cat "A", Cell.num 2),
         (Cell.cat "B", Cell.num 5), (Cell.cat "B", Cell.num 5)] (Cell.cat "B") = [5, 5] := by
      decide
    simp only [cat_on_num_effect_size]
    rw [hdf, huv]
    rw [show ([Cell.cat "A", Cell.cat "B"] : List Cell).getD 0 .na = Cell.cat "A" from rfl,
      show ([Cell.cat "A", Cell.cat "B"] : List Cell).getD 1 .na = Cell.cat "B" from rfl]
    rw [if_neg (by decide : ¬ (([Cell.cat "A", Cell.cat "B"] : List Cell).length < 2)),
      if_pos (by decide : ([Cell.cat "A", Cell.cat "B"] : List Cell).length = 2)]
    rw [hg1, hg2, hpsA]
    rw [if_neg one_ne_zero]
    rw [if_pos (by norm_num : (0 : ℝ) ≤ 1/20)]
    rw [hpsA] at hdA
    rw [hdA, hiA]
    rfl
  · have hdf : dropnaBoth (coerceSnd
        [(Cell.cat "B", Cell.num 5), (Cell.cat "B", Cell.num 5),
         (Cell.cat "A", Cell.num 0), (Cell.cat "A", Cell.num 2)]) =
        [(Cell.cat "B", Cell.num 5), (Cell.cat "B", Cell.num 5),
         (Cell.cat "A", Cell.num 0), (Cell.cat "A", Cell.num 2)] := by decide
    have huv : uniqueVals (([(Cell.cat "B", Cell.num 5), (Cell.cat "B", Cell.num 5),
        (Cell.cat "A", Cell.num 0), (Cell.cat "A", Cell.num 2)] : Table).map Prod.fst) =
        [Cell.cat "B", Cell.cat "A"] := by decide
    have hg1 : groupVals
        [(Cell.cat "B", Cell.num 5), (Cell.cat "B", Cell.num 5),
         (Cell.cat "A", Cell.num 0), (Cell.cat "A", Cell.num 2)] (Cell.cat "B") = [5, 5] := by
      decide
    have hg2 : groupVals
        [(Cell.cat "B", Cell.num 5), (Cell.cat "B", Cell.num 5),
         (Cell.cat "A", Cell.num 0), (Cell.cat "A", Cell.num 2)] (Cell.cat "A") = [0, 2] := by
      decide
    simp only [cat_on_num_effect_size]
    rw [hdf, huv]
    rw [show ([Cell.cat "B", Cell.cat "A"] : List Cell).getD 0 .na = Cell.cat "B" from rfl,
      show ([Cell.cat "B", Cell.cat "A"] : List Cell).getD 1 .na = Cell.cat "A" from rfl]
    rw [if_neg (by decide : ¬ (([Cell.cat "B", Cell.cat "A"] : List Cell).length < 2)),
      if_pos (by decide : ([Cell.cat "B", Cell.cat "A"] : List Cell).length = 2)]
    rw [hg1, hg2, hpsB]
    rw [if_neg one_ne_zero]
    rw [if_pos (by norm_num : (0 : ℝ) ≤ 1/20)]
    rw [hpsB] at hdB
    rw [hdB, hiB]
    rfl

/-- C2: the effect size carried by a significant categorical-categorical
result is exactly sqrt(phi2 / denom), where n is the total count of the
cross-tabulation, r and k are its distinct row and column value counts,
denom = min(r-1, k-1) replaced by 1 whenever that minimum is ≤ 0, and
phi2 = chi2 / n. -/
theorem c2_cramers_v_formula (t : Table) (alpha : ℝ) (chi2p : Table → ℝ)
    (ct : Table) (r k : ℕ) (hct : ct = dropnaBoth t)
    (hr : r = (rowVals ct).length) (hk : k = (colVals ct).length)
    (v : ℝ) (i : Option String) (p : ℝ)
    (hok : cat_on_cat_effect_size t alpha chi2p = .ok (.significant v i p)) :
    v = Real.sqrt (((chi2_stat ct / (ct.length : ℚ) : ℚ) : ℝ) /
      ((if min ((r : ℤ) - 1) ((k : ℤ) - 1) ≤ 0 then 1
        else min ((r : ℤ) - 1) ((k : ℤ) - 1) : ℤ) : ℝ)) := by
  subst hct; subst hr; subst hk
  have hv : v = cramers_v (dropnaBoth t) := by
    by_cases hp : chi2p (dropnaBoth t) ≤ alpha
    · simp only [cat_on_cat_effect_size, if_pos hp] at hok
      exact ((AnalysisResult.significant.inj (Except.ok.inj hok)).1).symm
    · simp only [cat_on_cat_effect_size, if_neg hp] at hok
      exact absurd (Except.ok.inj hok) (by simp)
  rw [hv]
  unfold cramers_v cat_cat_vsq cat_cat_phi2
  congr 1
  have hden : cat_cat_denom (dropnaBoth t) =
      (if min (((rowVals (dropnaBoth t)).length : ℤ) - 1)
            (((colVals (dropnaBoth t)).length : ℤ) - 1) ≤ 0 then 1
        else min (((rowVals (dropnaBoth t)).length : ℤ) - 1)
            (((colVals (dropnaBoth t)).length : ℤ) - 1)) := by
    unfold cat_cat_denom
    rw [min_comm]
    by_cases h : 0 < min (((rowVals (dropnaBoth t)).length : ℤ) - 1)
        (((colVals (dropnaBoth t)).length : ℤ) - 1)
    · rw [if_pos h, if_neg (not_le.mpr h)]
    · rw [if_neg h, if_pos (not_lt.mp h)]
  rw [hden]
  by_cases h : min (((rowVals (dropnaBoth t)).length : ℤ) - 1)
      (((colVals (dropnaBoth t)).length : ℤ) - 1) ≤ 0
  · rw [if_pos h]
    push_cast
    ring
  · rw [if_neg h]
    push_cast
    ring

/-- Witness for C2 on a concrete 2 by 2 contingency table with perfect
association (value sqrt(1) = 1). -/
theorem c2_cramers_v_formula_witness :
    cramers_v (dropnaBoth
        [(Cell.cat "A", Cell.cat "X"), (Cell.cat "A", Cell.cat "X"),
         (Cell.cat "B", Cell.cat "Y"), (Cell.cat "B", Cell.cat "Y")]) =
      Real.sqrt (((chi2_stat (dropnaBoth
          [(Cell.cat "A", Cell.cat "X"), (Cell.cat "A", Cell.cat "X"),
           (Cell.cat "B", Cell.cat "Y"), (Cell.cat "B", Cell.cat "Y")]) /
          ((dropnaBoth
          [(Cell.cat "A", Cell.cat "X"), (Cell.cat "A", Cell.cat "X"),
           (Cell.cat "B", Cell.cat "Y"), (Cell.cat "B", Cell.cat "Y")]).length : ℚ) : ℚ) : ℝ) /
        ((if min (((rowVals (dropnaBoth
              [(Cell.cat "A", Cell.cat "X"), (Cell.cat "A", Cell.cat "X"),
               (Cell.cat "B", Cell.cat "Y"), (Cell.cat "B", Cell.cat "Y")])).length : ℤ) - 1)
            (((colVals (dropnaBoth
              [(Cell.cat "A", Cell.cat "X"), (Cell.cat "A", Cell.cat "X"),
               (Cell.cat "B", Cell.cat "Y"), (Cell.cat "B", Cell.cat "Y")])).length : ℤ) - 1) ≤ 0
          then 1
          else min (((rowVals (dropnaBoth
              [(Cell.cat "A", Cell.cat "X"), (Cell.cat "A", Cell.cat "X"),
               (Cell.cat "B", Cell.cat "Y"), (Cell.cat "B", Cell.cat "Y")])).length : ℤ) - 1)
            (((colVals (dropnaBoth
              [(Cell.cat "A", Cell.cat "X"), (Cell.cat "A", Cell.cat "X"),
               (Cell.cat "B", Cell.cat "Y"), (Cell.cat "B", Cell.cat "Y")])).length : ℤ) - 1) :
          ℤ) : ℝ)) ∧
    cramers_v (dropnaBoth
        [(Cell.cat "A", Cell.cat "X"), (Cell.cat "A", Cell.cat "X"),
         (Cell.cat "B", Cell.cat "Y"), (Cell.cat "B", Cell.cat "Y")]) = 1 := by
  constructor
  · refine c2_cramers_v_formula
      [(Cell.cat "A", Cell.cat "X"), (Cell.cat "A", Cell.cat "X"),
       (Cell.cat "B", Cell.cat "Y"), (Cell.cat "B", Cell.cat "Y")]
      (1/20) (fun _ => (1/100 : ℝ)) _ _ _ rfl rfl rfl _
      (firstBand (cramers_v (dropnaBoth
        [(Cell.cat "A", Cell.cat "X"), (Cell.cat "A", Cell.cat "X"),
         (Cell.cat "B", Cell.cat "Y"), (Cell.cat "B", Cell.cat "Y")]))
        [(some (1/10), "small effect size"), (some (3/10), "medium effect size"),
         (some (5/10), "large effect size"), (none, "very large effect size")])
      (1/100) ?_
    simp only [cat_on_cat_effect_size]
    rw [if_pos (by norm_num : (1/100 : ℝ) ≤ 1/20)]
    rfl
  · have hvsq : cat_cat_vsq (dropnaBoth
        [(Cell.cat "A", Cell.cat "X"), (Cell.cat "A", Cell.cat "X"),
         (Cell.cat "B", Cell.cat "Y"), (Cell.cat "B", Cell.cat "Y")]) = 1 := by
      norm_num +decide [cat_cat_vsq, cat_cat_phi2, cat_cat_denom, chi2_stat, rowVals, colVals,
        uniqueVals, uniqueValsAux, cellCount, expectedCount, rowCount, colCount, dropnaBoth,
        Cell.isNA, List.filter]
    unfold cramers_v
    rw [hvsq]
    norm_num

theorem mem_rowVals (t : Table) (a : Cell) : a ∈ rowVals t ↔ ∃ x ∈ t, x.1 = a := by
  rw [rowVals, mem_uniqueVals, List.mem_map]

theorem mem_colVals (t : Table) (b : Cell) : b ∈ colVals t ↔ ∃ x ∈ t, x.2 = b := by
  rw [colVals, mem_uniqueVals, List.mem_map]

theorem rowCount_pos (t : Table) (a : Cell) (ha : a ∈ rowVals t) : 0 < rowCount t a := by
  obtain ⟨x, hx, hxa⟩ := (mem_rowVals t a).mp ha
  rw [rowCount, List.length_pos]
  intro hnil
  have : x ∈ t.filter (fun y => decide (y.1 = a)) := by
    rw [List.mem_filter]
    exact ⟨hx, by simp [hxa]⟩
  rw [hnil] at this
  exact List.not_mem_nil x this

theorem colCount_pos (t : Table) (b : Cell) (hb : b ∈ colVals t) : 0 < colCount t b := by
  obtain ⟨x, hx, hxb⟩ := (mem_colVals t b).mp hb
  rw [colCount, List.length_pos]
  intro hnil
  have : x ∈ t.filter (fun y => decide (y.2 = b)) := by
    rw [List.mem_filter]
    exact ⟨hx, by simp [hxb]⟩
  rw [hnil] at this
  exact List.not_mem_nil x this

theorem cellCount_swap_filters (t : Table) (a b : Cell) :
    cellCount t a b =
      ((t.filter (fun x => decide (x.2 = b))).filter (fun x => decide (x.1 = a))).length := by
  have hpred : (fun x : Cell × Cell => decide (x.2 = b) && decide (x.1 = a)) =
      (fun x : Cell × Cell => decide (x.1 = a) && decide (x.2 = b)) := by
    funext x
    rw [Bool.and_comm]
  rw [cellCount, List.filter_filter, List.filter_filter, hpred]

theorem cellCount_le_colCount (t : Table) (a b : Cell) : cellCount t a b ≤ colCount t b := by
  rw [cellCount_swap_filters, colCount]
  exact List.length_filter_le _ _

theorem cellCount_le_rowCount (t : Table) (a b : Cell) : cellCount t a b ≤ rowCount t a := by
  rw [cellCount, rowCount]
  exact List.length_filter_le _ _

theorem length_filter_partition {α β : Type} [DecidableEq β] (l : List α) (f : α → β)
    (s : Finset β) (hmem : ∀ x ∈ l, f x ∈ s) :
    l.length = ∑ v in s, (l.filter (fun x => decide (f x = v))).length := by
  induction l with
  | nil => simp
  | cons a l ih =>
    have hmem' : ∀ x ∈ l, f x ∈ s := fun x hx => hmem x (List.mem_cons_of_mem a hx)
    have hstep : ∀ v ∈ s, ((a :: l).filter (fun x => decide (f x = v))).length =
        (if f a = v then 1 else 0) + (l.filter (fun x => decide (f x = v))).length := by
      intro v _
      by_cases h : f a = v
      · simp [List.filter_cons, h]
        omega
      · simp [List.filter_cons, h]
    rw [List.length_cons, ih hmem', Finset.sum_congr rfl hstep, Finset.sum_add_distrib,
      Finset.sum_ite_eq s (f a) (fun _ => 1), if_pos (hmem a (List.mem_cons_self a l))]
    omega

theorem sum_rowCount (t : Table) :
    ∑ a in (rowVals t).toFinset, rowCount t a = t.length := by
  rw [show (∑ a in (rowVals t).toFinset, rowCount t a) =
      ∑ a in (rowVals t).toFinset, (t.filter (fun x => decide (x.1 = a))).length from rfl]
  exact (length_filter_partition t Prod.fst _ (fun x hx =>
    List.mem_toFinset.mpr ((mem_rowVals t x.1).mpr ⟨x, hx, rfl⟩))).symm

theorem sum_colCount (t : Table) :
    ∑ b in (colVals t).toFinset, colCount t b = t.length := by
  rw [show (∑ b in (colVals t).toFinset, colCount t b) =
      ∑ b in (colVals t).toFinset, (t.filter (fun x => decide (x.2 = b))).length from rfl]
  exact (length_filter_partition t Prod.snd _ (fun x hx =>
    List.mem_toFinset.mpr ((mem_colVals t x.2).mpr ⟨x, hx, rfl⟩))).symm

theorem sum_cellCount_row (t : Table) (a : Cell) :
    ∑ b in (colVals t).toFinset, cellCount t a b = rowCount t a := by
  rw [rowCount]
  exact (length_filter_partition (t.filter (fun x => decide (x.1 = a))) Prod.snd _
    (fun x hx => List.mem_toFinset.mpr
      ((mem_colVals t x.2).mpr ⟨x, List.mem_of_mem_filter hx, rfl⟩))).symm

theorem sum_cellCount_col (t : Table) (b : Cell) :
    ∑ a in (rowVals t).toFinset, cellCount t a b = colCount t b := by
  rw [colCount]
  rw [Finset.sum_congr rfl (fun a _ => cellCount_swap_filters t a b)]
  exact (length_filter_partition (t.filter (fun x => decide (x.2 = b))) Prod.fst _
    (fun x hx => List.mem_toFinset.mpr
      ((mem_rowVals t x.1).mpr ⟨x, List.mem_of_mem_filter hx, rfl⟩))).symm

theorem nodup_rowVals (t : Table) : (rowVals t).Nodup := nodup_uniqueVals _

theorem nodup_colVals (t : Table) : (colVals t).Nodup := nodup_uniqueVals _

theorem chi2_stat_eq_sum (t : Table) :
    chi2_stat t = ∑ a in (rowVals t).toFinset, ∑ b in (colVals t).toFinset,
      ((cellCount t a b : ℚ) - expectedCount t a b) ^ 2 / expectedCount t a b := by
  rw [chi2_stat]
  rw [← List.sum_toFinset _ (nodup_rowVals t)]
  exact Finset.sum_congr rfl (fun a _ => by
    rw [← List.sum_toFinset _ (nodup_colVals t)])

theorem chi2_stat_nonneg (t : Table) : 0 ≤ chi2_stat t := by
  rw [chi2_stat_eq_sum]
  refine Finset.sum_nonneg (fun a _ => Finset.sum_nonneg (fun b _ => ?_))
  apply div_nonneg (sq_nonneg _)
  rw [expectedCount]
  positivity

theorem chi2_stat_le_row (t : Table) :
    chi2_stat t ≤ (t.length : ℚ) * (((rowVals t).length : ℚ) - 1) := by
  rcases eq_or_ne t [] with rfl | hne
  · simp [chi2_stat, rowVals, colVals, uniqueVals, uniqueValsAux]
  have hn : 0 < (t.length : ℚ) := by
    exact_mod_cast List.length_pos.mpr hne
  have hRpos : ∀ a ∈ (rowVals t).toFinset, 0 < (rowCount t a : ℚ) := by
    intro a ha
    exact_mod_cast rowCount_pos t a (List.mem_toFinset.mp ha)
  have hCpos : ∀ b ∈ (colVals t).toFinset, 0 < (colCount t b : ℚ) := by
    intro b hb
    exact_mod_cast colCount_pos t b (List.mem_toFinset.mp hb)
  have hEpos : ∀ a ∈ (rowVals t).toFinset, ∀ b ∈ (colVals t).toFinset,
      0 < expectedCount t a b := by
    intro a ha b hb
    rw [expectedCount]
    exact div_pos (mul_pos (hRpos a ha) (hCpos b hb)) hn
  have hterm : ∀ a ∈ (rowVals t).toFinset, ∀ b ∈ (colVals t).toFinset,
      ((cellCount t a b : ℚ) - expectedCount t a b) ^ 2 / expectedCount t a b =
        (cellCount t a b : ℚ) ^ 2 / expectedCount t a b
          - 2 * (cellCount t a b : ℚ) + expectedCount t a b := by
    intro a ha b hb
    have hE := (hEpos a ha b hb).ne.symm
    field_simp
    ring
  have hrowE : ∀ a ∈ (rowVals t).toFinset,
      ∑ b in (colVals t).toFinset, expectedCount t a b = (rowCount t a : ℚ) := by
    intro a _
    have hsum : ∑ b in (colVals t).toFinset, (colCount t b : ℚ) = (t.length : ℚ) := by
      rw [← Nat.cast_sum, sum_colCount]
    simp only [expectedCount]
    rw [← Finset.sum_div, ← Finset.mul_sum, hsum]
    field_simp
  have hEsum : ∑ a in (rowVals t).toFinset, ∑ b in (colVals t).toFinset,
      expectedCount t a b = (t.length : ℚ) := by
    rw [Finset.sum_congr rfl hrowE, ← Nat.cast_sum, sum_rowCount]
  have hrowO : ∀ a ∈ (rowVals t).toFinset,
      ∑ b in (colVals t).toFinset, (cellCount t a b : ℚ) = (rowCount t a : ℚ) := by
    intro a _
    rw [← Nat.cast_sum, sum_cellCount_row]
  have hOsum : ∑ a in (rowVals t).toFinset, ∑ b in (colVals t).toFinset,
      (cellCount t a b : ℚ) = (t.length : ℚ) := by
    rw [Finset.sum_congr rfl hrowO, ← Nat.cast_sum, sum_rowCount]
  have hO2 : ∑ a in (rowVals t).toFinset, ∑ b in (colVals t).toFinset,
      (cellCount t a b : ℚ) ^ 2 / expectedCount t a b ≤
        (t.length : ℚ) * ((rowVals t).length : ℚ) := by
    have hinner : ∀ a ∈ (rowVals t).toFinset,
        ∑ b in (colVals t).toFinset, (cellCount t a b : ℚ) ^ 2 / expectedCount t a b ≤
          (t.length : ℚ) := by
      intro a ha
      have hRa := hRpos a ha
      have hstep : ∀ b ∈ (colVals t).toFinset,
          (cellCount t a b : ℚ) ^ 2 / expectedCount t a b ≤
            (t.length : ℚ) * (cellCount t a b : ℚ) / (rowCount t a : ℚ) := by
        intro b hb
        have hCb := hCpos b hb
        have hOC : (cellCount t a b : ℚ) ≤ (colCount t b : ℚ) := by
          exact_mod_cast cellCount_le_colCount t a b
        have hO : (0 : ℚ) ≤ (cellCount t a b : ℚ) := by positivity
        rw [expectedCount, div_div_eq_mul_div, div_le_div_iff₀ (by positivity) hRa]
        nlinarith [mul_nonneg (mul_nonneg (mul_nonneg hn.le hO) hRa.le)
          (sub_nonneg.mpr hOC)]
      calc ∑ b in (colVals t).toFinset, (cellCount t a b : ℚ) ^ 2 / expectedCount t a b
          ≤ ∑ b in (colVals t).toFinset,
              (t.length : ℚ) * (cellCount t a b : ℚ) / (rowCount t a : ℚ) :=
            Finset.sum_le_sum hstep
        _ = (t.length : ℚ) * (∑ b in (colVals t).toFinset, (cellCount t a b : ℚ)) /
              (rowCount t a : ℚ) := by
            rw [← Finset.sum_div, ← Finset.mul_sum]
        _ = (t.length : ℚ) * (rowCount t a : ℚ) / (rowCount t a : ℚ) := by
            rw [hrowO a ha]
        _ = (t.length : ℚ) := by field_simp
    calc ∑ a in (rowVals t).toFinset, ∑ b in (colVals t).toFinset,
          (cellCount t a b : ℚ) ^ 2 / expectedCount t a b
        ≤ ∑ _a in (rowVals t).toFinset, (t.length : ℚ) := Finset.sum_le_sum hinner
      _ = ((rowVals t).toFinset.card : ℚ) * (t.length : ℚ) := by
          rw [Finset.sum_const, nsmul_eq_mul]
      _ = (t.length : ℚ) * ((rowVals t).length : ℚ) := by
          rw [List.toFinset_card_of_nodup (nodup_rowVals t)]
          ring
  rw [chi2_stat_eq_sum,
    Finset.sum_congr rfl (fun a ha => Finset.sum_congr rfl (fun b hb => hterm a ha b hb))]
  have hsplit : ∑ a in (rowVals t).toFinset, ∑ b in (colVals t).toFinset,
      ((cellCount t a b : ℚ) ^ 2 / expectedCount t a b
        - 2 * (cellCount t a b : ℚ) + expectedCount t a b) =
      (∑ a in (rowVals t).toFinset, ∑ b in (colVals t).toFinset,
        (cellCount t a b : ℚ) ^ 2 / expectedCount t a b)
      - 2 * (∑ a in (rowVals t).toFinset, ∑ b in (colVals t).toFinset,
        (cellCount t a b : ℚ))
      + ∑ a in (rowVals t).toFinset, ∑ b in (colVals t).toFinset,
        expectedCount t a b := by
    have hin : ∀ a ∈ (rowVals t).toFinset,
        ∑ b in (colVals t).toFinset,
          ((cellCount t a b : ℚ) ^ 2 / expectedCount t a b
            - 2 * (cellCount t a b : ℚ) + expectedCount t a b) =
        (∑ b in (colVals t).toFinset, (cellCount t a b : ℚ) ^ 2 / expectedCount t a b)
          - 2 * (∑ b in (colVals t).toFinset, (cellCount t a b : ℚ))
          + ∑ b in (colVals t).toFinset, expectedCount t a b := by
      intro a _
      rw [Finset.sum_add_distrib, Finset.sum_sub_distrib, ← Finset.mul_sum]
    rw [Finset.sum_congr rfl hin, Finset.sum_add_distrib, Finset.sum_sub_distrib,
      ← Finset.mul_sum]
  rw [hsplit, hOsum, hEsum]
  have hring : (t.length : ℚ) * (((rowVals t).length : ℚ) - 1) =
      (t.length : ℚ) * ((rowVals t).length : ℚ) - (t.length : ℚ) := by ring
  rw [hring]
  linarith [hO2]

theorem rowVals_swap (t : Table) : rowVals (t.map Prod.swap) = colVals t := by
  rw [rowVals, colVals, List.map_map]
  rfl

theorem colVals_swap (t : Table) : colVals (t.map Prod.swap) = rowVals t := by
  rw [rowVals, colVals, List.map_map]
  rfl

theorem rowCount_swap (t : Table) (b : Cell) : rowCount (t.map Prod.swap) b = colCount t b := by
  rw [rowCount, colCount, ← List.countP_eq_length_filter, ← List.countP_eq_length_filter,
    List.countP_map]
  rfl

theorem colCount_swap (t : Table) (a : Cell) : colCount (t.map Prod.swap) a = rowCount t a := by
  rw [rowCount, colCount, ← List.countP_eq_length_filter, ← List.countP_eq_length_filter,
    List.countP_map]
  rfl

theorem cellCount_eq_countP (t : Table) (a b : Cell) :
    cellCount t a b = t.countP (fun x => decide (x.2 = b) && decide (x.1 = a)) := by
  rw [cellCount, List.filter_filter, ← List.countP_eq_length_filter]

theorem cellCount_swap (t : Table) (a b : Cell) :
    cellCount (t.map Prod.swap) a b = cellCount t b a := by
  rw [cellCount_eq_countP, cellCount_eq_countP, List.countP_map]
  congr 1
  funext x
  rw [Bool.and_comm]
  rfl

theorem expectedCount_swap (t : Table) (a b : Cell) :
    expectedCount (t.map Prod.swap) a b = expectedCount t b a := by
  rw [expectedCount, expectedCount, rowCount_swap, colCount_swap, List.length_map]
  ring

theorem chi2_stat_swap (t : Table) : chi2_stat (t.map Prod.swap) = chi2_stat t := by
  rw [chi2_stat_eq_sum, chi2_stat_eq_sum t, rowVals_swap, colVals_swap]
  rw [Finset.sum_congr rfl (fun a _ => Finset.sum_congr rfl (fun b _ => by
    rw [cellCount_swap, expectedCount_swap]))]
  exact Finset.sum_comm

theorem chi2_stat_le_col (t : Table) :
    chi2_stat t ≤ (t.length : ℚ) * (((colVals t).length : ℚ) - 1) := by
  have h := chi2_stat_le_row (t.map Prod.swap)
  rw [chi2_stat_swap, rowVals_swap, List.length_map] at h
  exact h

theorem one_le_cat_cat_denom (t : Table) : 1 ≤ cat_cat_denom t := by
  rw [cat_cat_denom]
  rcases lt_or_le 0 (min ((colVals t).length - 1 : ℤ) ((rowVals t).length - 1 : ℤ)) with h | h
  · rw [if_pos h]
    omega
  · rw [if_neg (not_lt.mpr h)]

/-- C5: for every input whose cross-tabulation has at least 2 distinct row
values and at least 2 distinct column values, the Cramér's V the analyzer
computes lies in [0, 1]; and denom is at least 1 for every table. -/
theorem c5_cramers_v_range (t : Table)
    (hr : 2 ≤ (rowVals (dropnaBoth t)).length) (hk : 2 ≤ (colVals (dropnaBoth t)).length) :
    (0 ≤ cramers_v (dropnaBoth t) ∧ cramers_v (dropnaBoth t) ≤ 1) ∧
    ∀ s : Table, 1 ≤ cat_cat_denom s := by
  refine ⟨⟨Real.sqrt_nonneg _, ?_⟩, one_le_cat_cat_denom⟩
  have hctne : dropnaBoth t ≠ [] := by
    intro h
    rw [h] at hr
    simp [rowVals, uniqueVals, uniqueValsAux] at hr
  have hn : 0 < ((dropnaBoth t).length : ℚ) := by
    exact_mod_cast List.length_pos.mpr hctne
  have hminpos : 0 < min ((colVals (dropnaBoth t)).length - 1 : ℤ)
      ((rowVals (dropnaBoth t)).length - 1 : ℤ) := by
    have h1 : (2 : ℤ) ≤ ((rowVals (dropnaBoth t)).length : ℤ) := by exact_mod_cast hr
    have h2 : (2 : ℤ) ≤ ((colVals (dropnaBoth t)).length : ℤ) := by exact_mod_cast hk
    rw [lt_min_iff]
    omega
  have hdenom : cat_cat_denom (dropnaBoth t) =
      min ((colVals (dropnaBoth t)).length - 1 : ℤ)
        ((rowVals (dropnaBoth t)).length - 1 : ℤ) := by
    rw [cat_cat_denom, if_pos hminpos]
  have hphi_r : cat_cat_phi2 (dropnaBoth t) ≤ ((rowVals (dropnaBoth t)).length : ℚ) - 1 := by
    rw [cat_cat_phi2, div_le_iff₀ hn]
    calc chi2_stat (dropnaBoth t)
        ≤ ((dropnaBoth t).length : ℚ) * (((rowVals (dropnaBoth t)).length : ℚ) - 1) :=
          chi2_stat_le_row (dropnaBoth t)
      _ = (((rowVals (dropnaBoth t)).length : ℚ) - 1) * ((dropnaBoth t).length : ℚ) := by
          ring
  have hphi_k : cat_cat_phi2 (dropnaBoth t) ≤ ((colVals (dropnaBoth t)).length : ℚ) - 1 := by
    rw [cat_cat_phi2, div_le_iff₀ hn]
    calc chi2_stat (dropnaBoth t)
        ≤ ((dropnaBoth t).length : ℚ) * (((colVals (dropnaBoth t)).length : ℚ) - 1) :=
          chi2_stat_le_col (dropnaBoth t)
      _ = (((colVals (dropnaBoth t)).length : ℚ) - 1) * ((dropnaBoth t).length : ℚ) := by
          ring
  have hphimin : cat_cat_phi2 (dropnaBoth t) ≤ ((cat_cat_denom (dropnaBoth t) : ℤ) : ℚ) := by
    rw [hdenom]
    push_cast
    exact le_min hphi_k hphi_r
  have hdpos : (0 : ℚ) < ((cat_cat_denom (dropnaBoth t) : ℤ) : ℚ) := by
    have h1 := one_le_cat_cat_denom (dropnaBoth t)
    have : (1 : ℚ) ≤ ((cat_cat_denom (dropnaBoth t) : ℤ) : ℚ) := by exact_mod_cast h1
    linarith
  have hvsq : cat_cat_vsq (dropnaBoth t) ≤ 1 := by
    rw [cat_cat_vsq, div_le_one hdpos]
    exact hphimin
  show Real.sqrt ((cat_cat_vsq (dropnaBoth t) : ℚ) : ℝ) ≤ 1
  rw [Real.sqrt_le_one]
  exact_mod_cast hvsq

/-- Witness for C5 on a concrete 2 by 2 contingency table. -/
theorem c5_cramers_v_range_witness :
    (0 ≤ cramers_v (dropnaBoth
        [(Cell.cat "A", Cell.cat "X"), (Cell.cat "A", Cell.cat "Y"),
         (Cell.cat "B", Cell.cat "X"), (Cell.cat "B", Cell.cat "Y")]) ∧
      cramers_v (dropnaBoth
        [(Cell.cat "A", Cell.cat "X"), (Cell.cat "A", Cell.cat "Y"),
         (Cell.cat "B", Cell.cat "X"), (Cell.cat "B", Cell.cat "Y")]) ≤ 1) ∧
    1 ≤ cat_cat_denom [] := by
  have h := c5_cramers_v_range
    [(Cell.cat "A", Cell.cat "X"), (Cell.cat "A", Cell.cat "Y"),
     (Cell.cat "B", Cell.cat "X"), (Cell.cat "B", Cell.cat "Y")]
    (by decide) (by decide)
  exact ⟨h.1, h.2 []⟩
